import Mathlib

/-!
Shallow embedding of the `FlipSign` template
(`src/pennylane/templates/subroutines/flip_sign.py`) and the pieces of the
resource estimator (`src/pennylane/resources/first_quantization.py`) that the
specification's claims are about.

Python integers are modelled as `Int` (or `Nat` where the source guarantees
non-negativity), Python lists as `List`, and Python exceptions as the `error`
side of `Except String`, carrying the exact message raised by the source.
-/

namespace FlipSign

/-! ### `FlipSign.to_list` and `FlipSign.to_number` -/

/-- Big-endian binary digits of `n`, i.e. the digits of the Python format string
`f"{n:b}"` for `n > 0` (and `[]` for `n = 0`; the format string itself renders
`0` as `"0"`, which `pyBin` below accounts for).  The first argument is
structural fuel: `n` itself always suffices, since the value halves each step. -/
def binDigitsAux : Nat → Nat → List Int
  | 0, _ => []
  | fuel + 1, n => if n = 0 then [] else binDigitsAux fuel (n / 2) ++ [((n % 2 : Nat) : Int)]

/-- Digits of the Python format string `f"{n:b}"`: big-endian binary, `"0"` for zero. -/
def pyBin (n : Nat) : List Int :=
  if n = 0 then [0] else binDigitsAux n n

/-- Python `str.zfill(width)` on a digit string: left-pad with zeros up to `width`
(no-op when the string is already at least that long). -/
def zfill (l : List Int) (width : Nat) : List Int :=
  List.replicate (width - l.length) 0 ++ l

/-- `FlipSign.to_list(n, n_wires)`: convert a non-negative integer into a big-endian
binary digit list, left-padded with zeros to `n_wires` digits; raises
`ValueError("cannot encode n with n wires ")` when `n >= 2**n_wires`. -/
def to_list (n : Nat) (n_wires : Nat) : Except String (List Int) :=
  if 2 ^ n_wires ≤ n then .error "cannot encode n with n wires "
  else .ok (zfill (pyBin n) n_wires)

/-- `FlipSign.to_number(arr_bin)`:
`sum([arr_bin[i] * 2 ** (len(arr_bin) - i - 1) for i in range(len(arr_bin))])`. -/
def to_number (arr_bin : List Int) : Int :=
  ((List.range arr_bin.length).map
    fun i => arr_bin.getD i 0 * 2 ^ (arr_bin.length - i - 1)).sum

/-! ### `FlipSign.__init__` and `FlipSign.is_binary_array` -/

/-- The `n` argument of `FlipSign.__init__`: a Python int or a Python list of ints. -/
inductive PyN where
  | int (k : Int)
  | list (xs : List Int)
deriving DecidableEq

/-- The `wires` argument of `FlipSign.__init__`: a Python list of ints, or one of the
other sequence types a caller might pass (tuple, range, numpy array), which the
source rejects with its very first `isinstance(wires, list)` check. -/
inductive PyWires where
  | pyList (ws : List Int)
  | pyTuple (ws : List Int)
  | pyRange (n : Nat)
  | ndarray (ws : List Int)
deriving DecidableEq

/-- The integer elements a `PyWires` value denotes. -/
def PyWires.elems : PyWires → List Int
  | .pyList ws => ws
  | .pyTuple ws => ws
  | .pyRange n => (List.range n).map Int.ofNat
  | .ndarray ws => ws

/-- Whether the wires argument is a Python `list` (`isinstance(wires, list)`). -/
def PyWires.isPyList : PyWires → Bool
  | .pyList _ => true
  | _ => false

/-- The check `np.array(xs).dtype == np.dtype("int")` for a Python list of ints:
the dtype is an integer dtype exactly when the list is nonempty (`np.array([])`
defaults to float64). -/
def np_int_dtype (xs : List Int) : Bool :=
  !xs.isEmpty

/-- `FlipSign.is_binary_array(arr)`: `np.array_equal(arr, arr.astype(bool))` on an
integer ndarray holds exactly when every entry equals its own boolean coercion,
i.e. every entry is 0 or 1.  (In the source this is only ever reached behind a
condition that is always false, see `flipSignInit`.) -/
def is_binary_array (arr : List Int) : Bool :=
  arr.all fun x => x == 0 || x == 1

/-- The statement
`if isinstance(n, list) and np.array(wires).dtype != np.dtype("int") and self.is_binary_array(n): n = self.to_number(n)`
from `FlipSign.__init__`. -/
def convertListN (n : PyN) (ws : List Int) : PyN :=
  match n with
  | .list xs =>
      if (!np_int_dtype ws) && is_binary_array xs then .int (to_number xs)
      else .list xs
  | .int k => .int k

/-- The tail of `FlipSign.__init__` after the wires checks and the (dead)
list-to-int conversion: the `type(n) == int` test with its `n >= 0` branch
calling `to_list`, the final `np.array(n).dtype` check, and the store of the
normalized pair. -/
def initTail (n1 : PyN) (ws : List Int) : Except String (List Int × List Int) :=
  match n1 with
  | .int k =>
      if 0 ≤ k then
        match to_list k.toNat ws.length with
        | .ok bits =>
            if !np_int_dtype bits then .error "expected at integer binary array "
            else .ok (ws, bits)
        | .error e => .error e
      else .error "expected at integer equal or greater than zero for basic flipping state "
  | .list _ =>
      .error "expected at integer equal or greater than zero for basic flipping state "

/-- `FlipSign.__init__(self, n, wires, ...)`, up to the point where the validated
and normalized data is stored (`self._hyperparameters = {"n": n}` together with
the wires handed to the superclass).  Success returns the stored pair
`(wires, n)`; each `raise ValueError(msg)` becomes `Except.error msg`.

Note the guard bug faithfully kept from the source (see `convertListN`): the
list-to-int conversion is guarded by `np.array(wires).dtype != np.dtype("int")`,
which can never hold at that point because that very condition was already
raised on two lines earlier, so a list-valued `n` always falls through to the
`type(n) == int` test and is rejected. -/
def flipSignInit (n : PyN) (wires : PyWires) : Except String (List Int × List Int) :=
  match wires with
  | .pyList ws =>
    if ws.length = 0 then
      .error "expected at least one wire representing the qubit "
    else if !np_int_dtype ws then
      .error "expected at integer binary array "
    else
      initTail (convertListN n ws) ws
  | _ => .error "expected at integer array for wires "

/-! ### `FlipSign.compute_decomposition` and gate semantics -/

/-- A gate emitted by the decomposition: `qml.PauliX(wire)` or
`qml.ctrl(qml.PauliZ, control=controls, control_values=control_values)(wires=target)`. -/
inductive GateOp where
  | pauliX (wire : Int)
  | ctrlZ (controls : List Int) (control_values : List Int) (target : Int)
deriving DecidableEq

/-- `FlipSign.compute_decomposition(wires, n)`.  The source first compares the two
lengths, raising on mismatch; on the empty lists Python's `n[-1]` would raise an
`IndexError`, modelled by the second error branch. -/
def compute_decomposition (wires : List Int) (n : List Int) :
    Except String (List GateOp) :=
  if wires.length = n.length then
    match wires.getLast?, n.getLast? with
    | some wt, some nb =>
        .ok (if nb = 0 then
              [GateOp.pauliX wt,
               GateOp.ctrlZ wires.dropLast n.dropLast wt,
               GateOp.pauliX wt]
            else
              [GateOp.ctrlZ wires.dropLast n.dropLast wt])
    | _, _ => .error "list index out of range"
  else
    .error "Wires length and flipping state length does not match, they must be equal length "

/-- A computational basis state of the joint system: a bit for every wire id. -/
abbrev Assign := Int → Bool

/-- Flip the bit of wire `t`. -/
def flipBit (t : Int) (s : Assign) : Assign :=
  fun j => if j = t then !(s j) else s j

/-- Whether basis state `s` assigns each listed wire its listed 0/1 value (a
control value `1` demands the wire be set, any other value demands it clear). -/
def basisMatch (ws vs : List Int) (s : Assign) : Bool :=
  (ws.zip vs).all fun cv => s cv.1 == decide (cv.2 = 1)

/-- Standard semantics of one gate on amplitude vectors (integer amplitudes
suffice for sign bookkeeping): `PauliX t` permutes the basis by flipping bit `t`;
a multi-controlled `PauliZ` negates the amplitude of exactly the basis states
whose controls match `control_values` and whose target bit is set. -/
def applyGate (g : GateOp) (a : Assign → Int) : Assign → Int :=
  match g with
  | .pauliX t => fun s => a (flipBit t s)
  | .ctrlZ cs vs t => fun s => if basisMatch cs vs s && s t then -a s else a s

/-- Apply a gate list in sequence (first gate first). -/
def applyOps (ops : List GateOp) (a : Assign → Int) : Assign → Int :=
  ops.foldl (fun acc g => applyGate g acc) a

/-! ### Arithmetic of the encoding -/

theorem to_number_nil : to_number [] = 0 := rfl

theorem to_number_cons (b : Int) (l : List Int) :
    to_number (b :: l) = b * 2 ^ l.length + to_number l := by
  unfold to_number
  rw [List.length_cons, List.range_succ_eq_map, List.map_cons, List.map_map, List.sum_cons]
  have h2 : List.map ((fun i => (b :: l).getD i 0 * 2 ^ (l.length + 1 - i - 1)) ∘ Nat.succ)
      (List.range l.length)
      = List.map (fun i => l.getD i 0 * 2 ^ (l.length - i - 1)) (List.range l.length) := by
    apply List.map_congr_left
    intro i hi
    simp only [Function.comp_apply, List.getD_cons_succ]
    have he : l.length + 1 - (i + 1) - 1 = l.length - i - 1 := by omega
    rw [he]
  rw [h2]
  simp

theorem to_number_append_singleton (l : List Int) (b : Int) :
    to_number (l ++ [b]) = 2 * to_number l + b := by
  induction l with
  | nil =>
      rw [List.nil_append, to_number_cons]
      simp [to_number_nil]
  | cons x xs ih =>
      rw [List.cons_append, to_number_cons, to_number_cons, ih]
      rw [List.length_append, List.length_singleton, pow_succ]
      ring

theorem to_number_zero_cons (l : List Int) : to_number (0 :: l) = to_number l := by
  rw [to_number_cons]; ring

theorem to_number_replicate_zero (m : Nat) (l : List Int) :
    to_number (List.replicate m 0 ++ l) = to_number l := by
  induction m with
  | zero => simp
  | succ k ih => rw [List.replicate_succ, List.cons_append, to_number_zero_cons, ih]

theorem to_number_zfill (l : List Int) (w : Nat) :
    to_number (zfill l w) = to_number l :=
  to_number_replicate_zero _ _

theorem binDigitsAux_to_number (fuel : Nat) :
    ∀ n : Nat, n ≤ fuel → to_number (binDigitsAux fuel n) = n := by
  induction fuel with
  | zero =>
      intro n hn
      interval_cases n
      simp [binDigitsAux, to_number_nil]
  | succ k ih =>
      intro n hn
      by_cases h0 : n = 0
      · simp [binDigitsAux, h0, to_number_nil]
      · rw [binDigitsAux, if_neg h0, to_number_append_singleton,
          ih (n / 2) (by omega)]
        push_cast
        omega

theorem to_number_pyBin (n : Nat) : to_number (pyBin n) = n := by
  by_cases h0 : n = 0
  · simp [pyBin, h0, to_number_cons, to_number_nil]
  · rw [pyBin, if_neg h0]
    exact binDigitsAux_to_number n n le_rfl

theorem binDigitsAux_length (fuel : Nat) :
    ∀ n w : Nat, n ≤ fuel → n < 2 ^ w → (binDigitsAux fuel n).length ≤ w := by
  induction fuel with
  | zero => intro n w hn hw; interval_cases n; simp [binDigitsAux]
  | succ k ih =>
      intro n w hn hw
      by_cases h0 : n = 0
      · simp [binDigitsAux, h0]
      · rw [binDigitsAux, if_neg h0]
        have hw1 : 1 ≤ w := by
          by_contra h
          have : w = 0 := by omega
          subst this
          simp at hw
          omega
        have hdiv : n / 2 < 2 ^ (w - 1) := by
          rw [Nat.div_lt_iff_lt_mul (by norm_num)]
          calc n < 2 ^ w := hw
            _ = 2 ^ (w - 1) * 2 := by
                rw [← pow_succ]
                congr 1
                omega
        have := ih (n / 2) (w - 1) (by omega) hdiv
        simp only [List.length_append, List.length_singleton]
        omega

theorem pyBin_length (n w : Nat) (hw : 1 ≤ w) (hn : n < 2 ^ w) :
    (pyBin n).length ≤ w := by
  by_cases h0 : n = 0
  · simp [pyBin, h0]; omega
  · rw [pyBin, if_neg h0]
    exact binDigitsAux_length n n w le_rfl hn

theorem zfill_length (l : List Int) (w : Nat) (h : l.length ≤ w) :
    (zfill l w).length = w := by
  simp [zfill]
  omega

theorem to_list_ok_length (n w : Nat) (bits : List Int) (hw : 1 ≤ w)
    (h : to_list n w = .ok bits) : bits.length = w := by
  unfold to_list at h
  by_cases hge : 2 ^ w ≤ n
  · rw [if_pos hge] at h; cases h
  · rw [if_neg hge] at h
    cases h
    exact zfill_length _ _ (pyBin_length n w hw (by omega))

/-! ### Semantics of the decomposition -/

theorem flipBit_flipBit (t : Int) (s : Assign) : flipBit t (flipBit t s) = s := by
  funext j
  by_cases h : j = t <;> simp [flipBit, h]

theorem flipBit_same (t : Int) (s : Assign) : flipBit t s t = !(s t) := by
  simp [flipBit]

theorem all_congr_mem {α : Type} (l : List α) (p q : α → Bool)
    (h : ∀ x ∈ l, p x = q x) : l.all p = l.all q := by
  induction l with
  | nil => rfl
  | cons x xs ih =>
      simp only [List.all_cons, h x (by simp)]
      rw [ih (fun y hy => h y (by simp [hy]))]

theorem basisMatch_flipBit_notMem (cs vs : List Int) (t : Int) (s : Assign)
    (h : t ∉ cs) : basisMatch cs vs (flipBit t s) = basisMatch cs vs s := by
  unfold basisMatch
  apply all_congr_mem
  intro cv hcv
  have hc : cv.1 ∈ cs := (List.of_mem_zip hcv).1
  have hne : cv.1 ≠ t := fun he => h (he ▸ hc)
  simp [flipBit, hne]

theorem basisMatch_append_singleton (ws vs : List Int) (t b : Int) (s : Assign)
    (h : ws.length = vs.length) :
    basisMatch (ws ++ [t]) (vs ++ [b]) s
      = (basisMatch ws vs s && (s t == decide (b = 1))) := by
  unfold basisMatch
  rw [List.zip_append h, List.all_append]
  simp

theorem compute_decomposition_eq (wires bits : List Int) (wt nb : Int)
    (hlen : wires.length = bits.length) (hwt : wires.getLast? = some wt)
    (hnb : bits.getLast? = some nb) :
    compute_decomposition wires bits =
      .ok (if nb = 0 then
            [GateOp.pauliX wt,
             GateOp.ctrlZ wires.dropLast bits.dropLast wt,
             GateOp.pauliX wt]
          else
            [GateOp.ctrlZ wires.dropLast bits.dropLast wt]) := by
  unfold compute_decomposition
  rw [if_pos hlen, hwt, hnb]

/-- C1: for every duplicate-free wire sequence of length at least one and every
0/1 bit vector of the same length, the gate sequence produced by
`FlipSign.compute_decomposition`, read under standard bit-flip and
multi-controlled phase-flip semantics, negates the amplitude of exactly the one
computational basis state whose bits match `bits` in the wire order and leaves
every other basis-state amplitude unchanged. -/
theorem flipSign_decomposition_flips_exactly_target
    (wires bits : List Int) (hlen : wires.length = bits.length)
    (hw : 1 ≤ wires.length) (hnodup : wires.Nodup)
    (hbin : ∀ b ∈ bits, b = 0 ∨ b = 1)
    (ops : List GateOp) (hops : compute_decomposition wires bits = .ok ops)
    (a : Assign → Int) (s : Assign) :
    applyOps ops a s = if basisMatch wires bits s then -a s else a s := by
  have hwne : wires ≠ [] := by
    intro h
    rw [h] at hw
    simp at hw
  have hbne : bits ≠ [] := by
    intro h
    rw [h] at hlen
    simp only [List.length_nil] at hlen
    omega
  have hwt : wires.getLast? = some (wires.getLast hwne) :=
    List.getLast?_eq_getLast wires hwne
  have hnb : bits.getLast? = some (bits.getLast hbne) :=
    List.getLast?_eq_getLast bits hbne
  have hops2 : ops =
      if bits.getLast hbne = 0 then
        [GateOp.pauliX (wires.getLast hwne),
         GateOp.ctrlZ wires.dropLast bits.dropLast (wires.getLast hwne),
         GateOp.pauliX (wires.getLast hwne)]
      else
        [GateOp.ctrlZ wires.dropLast bits.dropLast (wires.getLast hwne)] := by
    rw [compute_decomposition_eq wires bits _ _ hlen hwt hnb] at hops
    exact (Except.ok.inj hops).symm
  have hWBlen : wires.dropLast.length = bits.dropLast.length := by
    simp [hlen]
  have htW : wires.getLast hwne ∉ wires.dropLast := by
    have h := hnodup
    rw [← List.dropLast_append_getLast hwne] at h
    rcases List.nodup_append.mp h with ⟨-, -, hdisj⟩
    intro hmem
    exact hdisj hmem (by simp)
  have hmatch : basisMatch wires bits s
      = (basisMatch wires.dropLast bits.dropLast s
          && (s (wires.getLast hwne) == decide (bits.getLast hbne = 1))) := by
    conv_lhs =>
      rw [← List.dropLast_append_getLast hwne, ← List.dropLast_append_getLast hbne]
    exact basisMatch_append_singleton _ _ _ _ s hWBlen
  subst hops2
  rcases hbin (bits.getLast hbne) (List.getLast_mem hbne) with h0 | h1
  · rw [if_pos h0]
    simp only [applyOps, List.foldl_cons, List.foldl_nil, applyGate]
    rw [flipBit_flipBit, flipBit_same,
      basisMatch_flipBit_notMem _ _ _ _ htW, hmatch, h0]
    cases basisMatch wires.dropLast bits.dropLast s <;>
      cases s (wires.getLast hwne) <;> simp
  · rw [if_neg (by rw [h1]; norm_num)]
    simp only [applyOps, List.foldl_cons, List.foldl_nil, applyGate]
    rw [hmatch, h1]
    cases basisMatch wires.dropLast bits.dropLast s <;>
      cases s (wires.getLast hwne) <;> simp

theorem flipSign_decomposition_flips_exactly_target_witness :
    applyOps [GateOp.pauliX 1, GateOp.ctrlZ [0] [1] 1, GateOp.pauliX 1]
        (fun _ => (1 : Int)) (fun i => i == 0)
      = if basisMatch [0, 1] [1, 0] (fun i => i == 0) then -(1 : Int) else 1 :=
  flipSign_decomposition_flips_exactly_target [0, 1] [1, 0] rfl (by decide) (by decide)
    (by decide) _ rfl (fun _ => (1 : Int)) (fun i => i == 0)

/-- C2: for every wires list and bits list of equal length at least one (the last
entries being `wt` and `nb`), the decomposition is exactly three operations when
the last bit is 0 (a bit-flip on the last wire, the controlled phase-flip, and
the same bit-flip again) and exactly one operation otherwise; in both cases the
controlled phase-flip targets the last wire, controlled on the first `w - 1`
wires with the first `w - 1` bits as control values. -/
theorem flipSign_decomposition_shape (wires bits : List Int) (wt nb : Int)
    (hlen : wires.length = bits.length) (hwt : wires.getLast? = some wt)
    (hnb : bits.getLast? = some nb) :
    compute_decomposition wires bits =
      .ok (if nb = 0 then
            [GateOp.pauliX wt,
             GateOp.ctrlZ wires.dropLast bits.dropLast wt,
             GateOp.pauliX wt]
          else
            [GateOp.ctrlZ wires.dropLast bits.dropLast wt]) :=
  compute_decomposition_eq wires bits wt nb hlen hwt hnb

theorem flipSign_decomposition_shape_witness :
    compute_decomposition [0, 1] [1, 0] =
      .ok (if (0 : Int) = 0 then
            [GateOp.pauliX 1,
             GateOp.ctrlZ ([0, 1] : List Int).dropLast ([1, 0] : List Int).dropLast 1,
             GateOp.pauliX 1]
          else
            [GateOp.ctrlZ ([0, 1] : List Int).dropLast ([1, 0] : List Int).dropLast 1]) :=
  flipSign_decomposition_shape [0, 1] [1, 0] 1 0 rfl rfl rfl

/-- C3: encoding an integer `k < 2 ^ w` into `w` binary digits with
`FlipSign.to_list` and decoding with `FlipSign.to_number` reproduces `k`. -/
theorem to_list_to_number_roundtrip (w k : Nat) (_hw : 1 ≤ w) (hk : k < 2 ^ w) :
    (to_list k w).map to_number = .ok (k : Int) := by
  unfold to_list
  rw [if_neg (by omega)]
  show Except.ok (to_number (zfill (pyBin k) w)) = Except.ok (k : Int)
  rw [to_number_zfill, to_number_pyBin]

theorem to_list_to_number_roundtrip_witness :
    1 ≤ 3 ∧ 6 < 2 ^ 3 ∧ (to_list 6 3).map to_number = .ok (6 : Int) :=
  ⟨by decide, by decide, to_list_to_number_roundtrip 3 6 (by decide) (by decide)⟩

/-- C5: `FlipSign.to_list` raises `ValueError("cannot encode n with n wires ")`
exactly when the integer does not fit into the given number of wires, i.e. when
`n >= 2 ** n_wires`; otherwise it succeeds. -/
theorem to_list_encoding_overflow (k w : Nat) :
    (2 ^ w ≤ k → to_list k w = .error "cannot encode n with n wires ") ∧
    (k < 2 ^ w → (to_list k w).isOk = true) := by
  constructor
  · intro h
    unfold to_list
    rw [if_pos h]
  · intro h
    unfold to_list
    rw [if_neg (by omega)]
    rfl

theorem to_list_encoding_overflow_witness :
    to_list 6 2 = .error "cannot encode n with n wires " ∧
    (to_list 3 2).isOk = true :=
  ⟨(to_list_encoding_overflow 6 2).1 (by norm_num),
   (to_list_encoding_overflow 3 2).2 (by norm_num)⟩

/-! ### Analysis of `FlipSign.__init__` -/

theorem np_int_dtype_of_ne_nil (l : List Int) (h : l.length ≠ 0) :
    np_int_dtype l = true := by
  cases l with
  | nil => exact absurd rfl h
  | cons x xs => rfl

theorem convertListN_of_int_dtype (n : PyN) (ws : List Int)
    (h : np_int_dtype ws = true) : convertListN n ws = n := by
  cases n with
  | int k => rfl
  | list xs => simp [convertListN, h]

theorem flipSignInit_ok (n : PyN) (w : PyWires) (ws bits : List Int)
    (h : flipSignInit n w = .ok (ws, bits)) :
    ∃ k : Int, n = .int k ∧ 0 ≤ k ∧ w = .pyList ws ∧ 1 ≤ ws.length ∧
      to_list k.toNat ws.length = .ok bits := by
  cases w with
  | pyTuple ws2 => exact Except.noConfusion h
  | pyRange m => exact Except.noConfusion h
  | ndarray ws2 => exact Except.noConfusion h
  | pyList ws2 =>
      simp only [flipSignInit] at h
      by_cases h0 : ws2.length = 0
      · rw [if_pos h0] at h
        exact Except.noConfusion h
      · rw [if_neg h0] at h
        have hdt := np_int_dtype_of_ne_nil ws2 h0
        rw [if_neg (by simp [hdt])] at h
        rw [convertListN_of_int_dtype n ws2 hdt] at h
        cases n with
        | list xs =>
            simp only [initTail] at h
            exact Except.noConfusion h
        | int k =>
            simp only [initTail] at h
            by_cases hk : 0 ≤ k
            · rw [if_pos hk] at h
              cases hto : to_list k.toNat ws2.length with
              | error e =>
                  rw [hto] at h
                  exact Except.noConfusion h
              | ok bits2 =>
                  rw [hto] at h
                  have hlen2 : bits2.length = ws2.length :=
                    to_list_ok_length _ _ _ (by omega) hto
                  have hdt2 : np_int_dtype bits2 = true :=
                    np_int_dtype_of_ne_nil bits2 (by omega)
                  simp only [hdt2, Bool.not_true, Except.ok.injEq, Prod.mk.injEq,
                    if_false, Bool.false_eq_true] at h
                  obtain ⟨e1, e2⟩ := h
                  subst e1
                  subst e2
                  exact ⟨k, rfl, hk, rfl, by omega, hto⟩
            · rw [if_neg hk] at h
              exact Except.noConfusion h

/-- C8: construction with an empty wire sequence fails with a `ValueError`
whatever the basis-state specifier is: an empty list hits the
`len(wires) == 0` check, while an empty tuple, range or array already fails the
`isinstance(wires, list)` check. -/
theorem flipSign_empty_wires_rejected (n : PyN) (w : PyWires) (h : w.elems = []) :
    flipSignInit n w = .error "expected at least one wire representing the qubit " ∨
    flipSignInit n w = .error "expected at integer array for wires " := by
  cases w with
  | pyList ws =>
      left
      have h0 : ws.length = 0 := by
        simp only [PyWires.elems] at h
        rw [h]
        rfl
      simp only [flipSignInit]
      rw [if_pos h0]
  | pyTuple ws => exact Or.inr rfl
  | pyRange m => exact Or.inr rfl
  | ndarray ws => exact Or.inr rfl

theorem flipSign_empty_wires_rejected_witness :
    flipSignInit (PyN.int 0) (PyWires.pyList []) =
        .error "expected at least one wire representing the qubit " ∨
    flipSignInit (PyN.int 0) (PyWires.pyList []) =
        .error "expected at integer array for wires " :=
  flipSign_empty_wires_rejected (PyN.int 0) (PyWires.pyList []) rfl

/-- C9: every successful construction stores a bit vector whose length equals
the number of wires; and `FlipSign.compute_decomposition` raises the
mismatched-length `ValueError` whenever the two lengths differ. -/
theorem flipSign_stored_bits_length :
    (∀ (n : PyN) (w : PyWires) (ws bits : List Int),
        flipSignInit n w = .ok (ws, bits) → bits.length = ws.length) ∧
    (∀ wires bits : List Int, wires.length ≠ bits.length →
        compute_decomposition wires bits =
          .error "Wires length and flipping state length does not match, they must be equal length ") := by
  constructor
  · intro n w ws bits h
    obtain ⟨k, -, -, -, hw1, hto⟩ := flipSignInit_ok n w ws bits h
    exact to_list_ok_length _ _ _ hw1 hto
  · intro wires bits hne
    unfold compute_decomposition
    rw [if_neg hne]

theorem flipSign_stored_bits_length_witness :
    ([1, 0, 1] : List Int).length = ([10, 11, 12] : List Int).length ∧
    compute_decomposition [0, 1] [1, 0, 1] =
      .error "Wires length and flipping state length does not match, they must be equal length " :=
  ⟨flipSign_stored_bits_length.1 (PyN.int 5) (PyWires.pyList [10, 11, 12])
      [10, 11, 12] [1, 0, 1] rfl,
   flipSign_stored_bits_length.2 [0, 1] [1, 0, 1] (by decide)⟩

/-- C10: every wires argument that is not a Python list — tuple, range or numpy
array, even with perfectly valid non-negative integer elements — is rejected by
the very first check of `FlipSign.__init__`, with the wires-type `ValueError`
and before any other validation can run. -/
theorem flipSign_nonlist_wires_rejected (n : PyN) (w : PyWires)
    (h : w.isPyList = false) :
    flipSignInit n w = .error "expected at integer array for wires " := by
  cases w with
  | pyList ws => exact absurd h (by simp [PyWires.isPyList])
  | pyTuple ws => rfl
  | pyRange m => rfl
  | ndarray ws => rfl

theorem flipSign_nonlist_wires_rejected_witness :
    (PyWires.pyTuple [0, 1]).isPyList = false ∧
    flipSignInit (PyN.int 2) (PyWires.pyTuple [0, 1]) =
      .error "expected at integer array for wires " :=
  ⟨rfl, flipSign_nonlist_wires_rejected (PyN.int 2) (PyWires.pyTuple [0, 1]) rfl⟩

/-- C4 (code bug): the class docstring example and the test suite pass the
basis state as the binary list `[1, 0]` with wires `[0, 1]` and expect
construction to succeed, but `FlipSign.__init__` rejects every list-valued
specifier: the list-to-int conversion is dead code (its guard requires the
wires dtype check, which already passed, to have failed), so the
`type(n) == int` test always raises for a list. -/
theorem flipSign_bitvector_rejected :
    flipSignInit (PyN.list [1, 0]) (PyWires.pyList [0, 1]) =
      .error "expected at integer equal or greater than zero for basic flipping state " :=
  rfl

end FlipSign
